import Mathlib

/-!
Verification of the meditation-app audio pipeline (server/routes/ttsRoutes.js and
its rewritten variants).  The segmenter, the per-unit TTS generation, the batch
coordinator, the assembler manifest, the caches and their sweeps, and the two
music-mixing filter graphs are embedded as executable Lean definitions, and the
behavioural claims about them are settled as theorems.

Conventions of the embedding:
 - JavaScript strings are Lean `String`s (lists of characters); the `.length`
   of the inputs involved here coincides with the JS UTF-16 length because only
   BMP characters occur.
 - The md5 content fingerprint is modelled by the hashed data string itself:
   every property proved here depends only on equality of the hashed inputs,
   which md5 preserves.
 - The filesystem is a list of existing paths, `Map`s are association lists,
   and `Date.now()` is an explicit `now : Nat` argument.
 - External collaborators (the OpenAI TTS call, ffmpeg invocations) are oracle
   parameters returning `Except`/`Option` values.
-/

deriving instance DecidableEq for Except

/-! ## Whitespace normalisation (script.replace of whitespace runs, then trim) -/

/-- The JS whitespace class, restricted to its ASCII members (space, tab,
line feed, vertical tab, form feed, carriage return). -/
def isJsWs (c : Char) : Bool :=
  c = ' ' || c = '\t' || c = '\n' || c = '\x0b' || c = '\x0c' || c = '\r'

/-- Collapse every maximal run of whitespace to a single space, as the
regex replace of one-or-more whitespace with a single space does.  The
Boolean flag records whether the previous character was inside a run. -/
def collapseWsGo : Bool → List Char → List Char
  | _, [] => []
  | inRun, c :: cs =>
    if isJsWs c then
      if inRun then collapseWsGo true cs else ' ' :: collapseWsGo true cs
    else c :: collapseWsGo false cs

def collapseWs (l : List Char) : List Char := collapseWsGo false l

/-- JS String.prototype.trim on the character list: drop whitespace from
both ends. -/
def trimChars (l : List Char) : List Char :=
  ((l.dropWhile isJsWs).reverse.dropWhile isJsWs).reverse

/-- Trim at the String level, as segment.trim() in the segmentation loop. -/
def jsTrim (s : String) : String := ⟨trimChars s.data⟩

/-- The whitespace normalisation performed at the top of parsePlaceholders:
collapse whitespace runs to single spaces, then trim the ends. -/
def normWs (l : List Char) : List Char := trimChars (collapseWs l)

def normString (s : String) : String := ⟨normWs s.data⟩

/-! ## The pause-marker scanner (the split on the PAUSE regex, keeping
the captured markers) -/

/-- Drop the literal character list lit from the front of l, if it is a
prefix of l. -/
def dropLit : List Char → List Char → Option (List Char)
  | [], l => some l
  | _ :: _, [] => none
  | p :: ps, c :: cs => if c = p then dropLit ps cs else none

theorem dropLit_eq_some {lit l r : List Char} (h : dropLit lit l = some r) :
    l = lit ++ r := by
  induction lit generalizing l with
  | nil =>
    simp only [dropLit, Option.some.injEq] at h
    simp [h]
  | cons p ps ih =>
    cases l with
    | nil => simp [dropLit] at h
    | cons c cs =>
      by_cases hc : c = p
      · subst hc
        simp only [dropLit, if_pos rfl] at h
        simpa using ih h
      · simp [dropLit, hc] at h

/-- The opening characters of a pause marker. -/
def pauseOpen : List Char := ['{', '{', 'P', 'A', 'U', 'S', 'E', '_']

/-- The closing characters of a pause marker. -/
def pauseClose : List Char := ['s', '}', '}']

/-- Try to read a pause marker at the head of the list: two open braces,
the literal PAUSE_, one or more decimal digits, then the letter s and two
close braces.  Returns the digit characters and the remainder.  This is
the anchored form of the split regex; like the regex, it requires at
least one digit. -/
def parseMarkerAt (l : List Char) : Option (List Char × List Char) :=
  (dropLit pauseOpen l).bind fun r =>
    if (r.takeWhile Char.isDigit).isEmpty then none
    else
      (dropLit pauseClose (r.dropWhile Char.isDigit)).bind fun rest =>
        some (r.takeWhile Char.isDigit, rest)

/-- The marker text that the scanner consumed: the raw characters of the
pause marker with the given digit characters. -/
def markerChars (ds : List Char) : List Char :=
  pauseOpen ++ ds ++ pauseClose

theorem parseMarkerAt_consumes {l ds rest} (h : parseMarkerAt l = some (ds, rest)) :
    l = markerChars ds ++ rest := by
  unfold parseMarkerAt at h
  rw [Option.bind_eq_some] at h
  obtain ⟨r, h0, h⟩ := h
  by_cases he : (r.takeWhile Char.isDigit).isEmpty
  · rw [if_pos he] at h
    exact absurd h (by simp)
  · rw [if_neg he, Option.bind_eq_some] at h
    obtain ⟨rest', h2, h3⟩ := h
    simp only [Option.some.injEq, Prod.mk.injEq] at h3
    obtain ⟨rfl, rfl⟩ := h3
    have hl := dropLit_eq_some h0
    have hc := dropLit_eq_some h2
    have hr : r.takeWhile Char.isDigit ++ r.dropWhile Char.isDigit = r :=
      List.takeWhile_append_dropWhile _ _
    rw [hl]
    conv_lhs => rw [← hr]
    rw [hc]
    simp [markerChars]

theorem parseMarkerAt_length {l ds rest} (h : parseMarkerAt l = some (ds, rest)) :
    rest.length < l.length := by
  have := parseMarkerAt_consumes h
  subst this
  simp [markerChars, pauseOpen, pauseClose]
  omega

/-- The split of the script on the pause-marker regex, keeping the captured
markers; fuel-driven scan (the fuel is always at least the length of the
remaining input plus one, so it never runs out).  The result is the
leading text piece together with the list of (marker digits, following
text piece) pairs; flattening it reproduces the alternating piece list
that the JS split returns. -/
def splitPausesGo : Nat → List Char → List Char × List (List Char × List Char)
  | 0, _ => ([], [])
  | _ + 1, [] => ([], [])
  | fuel + 1, c :: cs =>
    match parseMarkerAt (c :: cs) with
    | some (ds, rest) =>
      let p := splitPausesGo fuel rest
      ([], (ds, p.1) :: p.2)
    | none =>
      let p := splitPausesGo fuel cs
      (c :: p.1, p.2)

def splitPauses (l : List Char) : List Char × List (List Char × List Char) :=
  splitPausesGo (l.length + 1) l

/-- Decimal value of the captured digit characters, as parseInt with
radix 10 computes on a digit-only string. -/
def digitsVal (ds : List Char) : Nat :=
  ds.foldl (fun a c => 10 * a + (c.toNat - 48)) 0

/-! ## The segmentation loop of parsePlaceholders -/

/-- One atomic segmentation output: text plus pause seconds; silence
blocks have empty text, speech blocks have pause 0. -/
structure Block where
  text : String
  pause : Nat
deriving DecidableEq, Repr

/-- One piece of the split array: a text piece or a captured pause marker.
Text pieces contain no whole marker (the split removed every occurrence),
so re-matching the pause regex on them fails, and trimming a marker piece
is the identity; the loop is therefore modelled on pre-tagged pieces. -/
inductive Seg where
  | text (s : String)
  | pause (n : Nat)
deriving DecidableEq, Repr

/-- The alternating marker/text piece tail of the split. -/
def pairSegs (ps : List (List Char × List Char)) : List Seg :=
  ps.flatMap (fun p => [Seg.pause (digitsVal p.1), Seg.text ⟨p.2⟩])

/-- The alternating piece list of the split in left-to-right order. -/
def segsOf (sp : List Char × List (List Char × List Char)) : List Seg :=
  Seg.text ⟨sp.1⟩ :: pairSegs sp.2

/-- The accumulation loop of parsePlaceholders (part_002 lines 91-127):
trim each segment, skip empties, flush the accumulated chunk at each
pause marker, accumulate text up to the 4000-character threshold, and
flush the remainder at the end. -/
def blocksLoop : List Seg → String → Nat → List Block
  | [], chunk, curPause =>
    if chunk ≠ "" then [⟨chunk, curPause⟩] else []
  | Seg.pause n :: rest, chunk, curPause =>
    if chunk ≠ "" then
      ⟨chunk, curPause⟩ :: ⟨"", n⟩ :: blocksLoop rest "" 0
    else
      ⟨"", n⟩ :: blocksLoop rest "" curPause
  | Seg.text s :: rest, chunk, curPause =>
    let seg := jsTrim s
    if seg = "" then blocksLoop rest chunk curPause
    else if (chunk ++ " " ++ seg).length ≤ 4000 then
      blocksLoop rest (if chunk ≠ "" then chunk ++ " " ++ seg else seg) curPause
    else if chunk ≠ "" then
      ⟨chunk, curPause⟩ :: blocksLoop rest seg 0
    else
      blocksLoop rest seg curPause

/-- parsePlaceholders: normalise whitespace, split on pause markers, and
run the accumulation loop over the pieces. -/
def parsePlaceholders (script : String) : List Block :=
  blocksLoop (segsOf (splitPauses (normWs script.data))) "" 0

example : parsePlaceholders "Hello \x7b\x7bPAUSE_2s\x7d\x7d world" =
    [⟨"Hello", 0⟩, ⟨"", 2⟩, ⟨"world", 0⟩] := by decide

example : parsePlaceholders "A\x7b\x7bPAUSE_2s\x7d\x7dB" =
    [⟨"A", 0⟩, ⟨"", 2⟩, ⟨"B", 0⟩] := by decide

example : parsePlaceholders "  a   b  " = [⟨"a b", 0⟩] := by decide

/-! ## Structural characterisation of parsePlaceholders

Because the split pieces alternate between text and markers, and the loop
flushes the accumulated chunk at every marker, the accumulation threshold
never combines two text pieces: each resulting block is exactly one
trimmed split piece.  The lemmas below prove this from the faithful loop. -/

/-- The join of the raw split pieces in order reproduces the input. -/
theorem splitPausesGo_join :
    ∀ (fuel : Nat) (l : List Char), l.length < fuel →
      (splitPausesGo fuel l).1 ++
        (splitPausesGo fuel l).2.flatMap (fun p => markerChars p.1 ++ p.2) = l := by
  intro fuel
  induction fuel with
  | zero => intro l h; omega
  | succ fuel ih =>
    intro l h
    cases l with
    | nil => simp [splitPausesGo]
    | cons c cs =>
      simp only [List.length_cons] at h
      cases hm : parseMarkerAt (c :: cs) with
      | some p =>
        obtain ⟨ds, rest⟩ := p
        have hcons := parseMarkerAt_consumes hm
        have hlen : rest.length < fuel := by
          have := parseMarkerAt_length hm
          simp only [List.length_cons] at this
          omega
        simp only [splitPausesGo, hm, List.flatMap_cons, List.nil_append]
        rw [List.append_assoc, ih rest hlen, hcons]
      | none =>
        have hlen : cs.length < fuel := by omega
        simp only [splitPausesGo, hm, List.cons_append]
        rw [ih cs hlen]

theorem splitPauses_join (l : List Char) :
    (splitPauses l).1 ++
      (splitPauses l).2.flatMap (fun p => markerChars p.1 ++ p.2) = l :=
  splitPausesGo_join (l.length + 1) l (Nat.lt_succ_self _)

/-- Processing a text piece with an empty accumulated chunk always makes
the trimmed piece the new chunk (both branches of the threshold test
coincide when the chunk is empty). -/
theorem blocksLoop_text (s : String) (rest : List Seg) (p : Nat) :
    blocksLoop (Seg.text s :: rest) "" p = blocksLoop rest (jsTrim s) p := by
  by_cases h : jsTrim s = "" <;> simp [blocksLoop, h]

/-- Processing a marker piece flushes the accumulated chunk and emits the
silence block. -/
theorem blocksLoop_pause (n : Nat) (rest : List Seg) (chunk : String) :
    blocksLoop (Seg.pause n :: rest) chunk 0 =
      (if chunk ≠ "" then [⟨chunk, 0⟩] else []) ++ ⟨"", n⟩ :: blocksLoop rest "" 0 := by
  by_cases h : chunk = "" <;> simp [blocksLoop, h]

/-- The speech block made of one trimmed text piece, when nonempty. -/
def optSpeech (t : List Char) : List Block :=
  if trimChars t = [] then [] else [⟨⟨trimChars t⟩, 0⟩]

/-- The blocks of the split: the optional leading speech block, then for
each pair one silence block followed by the optional speech block of the
following text piece. -/
def mkBlocks (t0 : List Char) (ps : List (List Char × List Char)) : List Block :=
  optSpeech t0 ++ ps.flatMap (fun p => ⟨"", digitsVal p.1⟩ :: optSpeech p.2)

theorem blocksLoop_pairs :
    ∀ (ps : List (List Char × List Char)) (chunk : String),
      blocksLoop (pairSegs ps) chunk 0 =
        (if chunk ≠ "" then [⟨chunk, 0⟩] else []) ++
          ps.flatMap (fun p => ⟨"", digitsVal p.1⟩ :: optSpeech p.2) := by
  intro ps
  induction ps with
  | nil =>
    intro chunk
    by_cases h : chunk = "" <;> simp [pairSegs, blocksLoop, h]
  | cons q qs ih =>
    intro chunk
    simp only [pairSegs, List.flatMap_cons, List.cons_append, List.nil_append] at ih ⊢
    rw [blocksLoop_pause, blocksLoop_text, ih]
    have htrim : jsTrim (⟨q.2⟩ : String) = (⟨trimChars q.2⟩ : String) := rfl
    rw [htrim]
    by_cases h2 : trimChars q.2 = []
    · simp [optSpeech, h2, List.flatMap_cons]
    · have : (⟨trimChars q.2⟩ : String) ≠ "" := by
        simpa [String.ext_iff] using h2
      simp [optSpeech, h2, this, List.flatMap_cons]

/-- parsePlaceholders produces exactly the blocks of the split pieces:
each speech block is one trimmed text piece and each marker is one
silence block, in left-to-right order. -/
theorem parsePlaceholders_eq_mkBlocks (s : String) :
    parsePlaceholders s =
      mkBlocks (splitPauses (normWs s.data)).1 (splitPauses (normWs s.data)).2 := by
  unfold parsePlaceholders segsOf mkBlocks
  rw [blocksLoop_text, blocksLoop_pairs]
  have htrim : jsTrim (⟨(splitPauses (normWs s.data)).1⟩ : String) =
      (⟨trimChars (splitPauses (normWs s.data)).1⟩ : String) := rfl
  rw [htrim]
  by_cases h : trimChars (splitPauses (normWs s.data)).1 = []
  · simp [optSpeech, h]
  · have : (⟨trimChars (splitPauses (normWs s.data)).1⟩ : String) ≠ "" := by
      simpa [String.ext_iff] using h
    simp [optSpeech, h, this]

/-! ## Reconstruction of the script from the unit sequence (claim C2) -/

/-- Join character-list items with single spaces between consecutive
items (the single-space intercalation the reconstruction claim uses). -/
def joinSpChars : List (List Char) → List Char
  | [] => []
  | [x] => x
  | x :: y :: xs => x ++ ' ' :: joinSpChars (y :: xs)

theorem joinSpChars_cons (x : List Char) (xs : List (List Char)) :
    joinSpChars (x :: xs) = x ++ xs.flatMap (fun y => ' ' :: y) := by
  induction xs generalizing x with
  | nil => simp [joinSpChars]
  | cons y ys ih => simp [joinSpChars, ih y, List.flatMap_cons]

/-- The characters a unit contributes to the reconstruction: the text of
a speech unit, or the canonical marker of a silence unit. -/
def unitChars (b : Block) : List Char :=
  if b.text = "" then markerChars (Nat.repr b.pause).data else b.text.data

/-- Reconstruction of the script from the unit sequence: the character
contributions of the units joined by single spaces. -/
def reconstructScript (bs : List Block) : String :=
  ⟨joinSpChars (bs.map unitChars)⟩

/-- The reconstruction item of one trimmed text piece, when nonempty. -/
def optItem (u : List Char) : List (List Char) := if u = [] then [] else [u]

/-- The reconstruction items contributed by the marker/text pairs. -/
def pairItems (ps : List (List Char × List Char)) : List (List Char) :=
  ps.flatMap (fun p => markerChars (Nat.repr (digitsVal p.1)).data :: optItem (trimChars p.2))

/-- The raw characters of the marker/text pairs in order. -/
def flatRaw (ps : List (List Char × List Char)) : List Char :=
  ps.flatMap (fun p => markerChars p.1 ++ p.2)

/-- The digit characters of a captured marker are the canonical decimal
numeral of the parsed value (no leading zeros). -/
def canonicalPair (p : List Char × List Char) : Bool :=
  (Nat.repr (digitsVal p.1)).data == p.1

/-- A text piece standing between two markers is exactly one space, or a
space, the trim-invariant core, and a space. -/
def spacedMid (t : List Char) : Bool :=
  t == [' '] || (!(trimChars t).isEmpty && t == ' ' :: (trimChars t ++ [' ']))

/-- The final text piece is empty or a space followed by the
trim-invariant core. -/
def spacedLast (t : List Char) : Bool :=
  t == ([] : List Char) || (!(trimChars t).isEmpty && t == ' ' :: trimChars t)

def spacedPairs : List (List Char × List Char) → Bool
  | [] => true
  | [p] => spacedLast p.2
  | p :: ps => spacedMid p.2 && spacedPairs ps

/-- The leading text piece is trim-invariant when no marker follows, and
otherwise empty or the trim-invariant core followed by a space. -/
def spacedFirst (t0 : List Char) (ps : List (List Char × List Char)) : Bool :=
  match ps with
  | [] => t0 == trimChars t0
  | _ :: _ => t0 == ([] : List Char) ||
      (!(trimChars t0).isEmpty && t0 == trimChars t0 ++ [' '])

/-- Every pause marker of the normalised script is separated from
adjacent text by a space (or stands at a boundary), and its digits are
canonical. -/
def wellSpacedSplit (sp : List Char × List (List Char × List Char)) : Bool :=
  spacedFirst sp.1 sp.2 && spacedPairs sp.2 && sp.2.all canonicalPair

theorem flatMap_space_cons (a : List Char) (xs : List (List Char)) :
    (a :: xs).flatMap (fun y => ' ' :: y) = ' ' :: joinSpChars (a :: xs) := by
  simp [List.flatMap_cons, joinSpChars_cons]

theorem joinSp_pairItems :
    ∀ ps : List (List Char × List Char), ps ≠ [] →
      spacedPairs ps = true → ps.all canonicalPair = true →
      joinSpChars (pairItems ps) = flatRaw ps := by
  intro ps
  induction ps with
  | nil => intro h; exact absurd rfl h
  | cons q qs ih =>
    intro _ hsp hcanon
    simp only [List.all_cons, Bool.and_eq_true] at hcanon
    obtain ⟨hc, hcanon'⟩ := hcanon
    have hcq : (Nat.repr (digitsVal q.1)).data = q.1 := by
      simpa [canonicalPair] using hc
    cases qs with
    | nil =>
      have hlast : spacedLast q.2 = true := by simpa [spacedPairs] using hsp
      simp only [spacedLast, Bool.or_eq_true, Bool.and_eq_true, beq_iff_eq,
        Bool.not_eq_true'] at hlast
      rcases hlast with h2 | ⟨hne, h2⟩
      · have ht : trimChars q.2 = [] := by rw [h2]; rfl
        simp [pairItems, flatRaw, optItem, ht, h2, hcq, joinSpChars]
      · have hne' : trimChars q.2 ≠ [] := by
          intro hx; rw [hx] at hne; simp [List.isEmpty] at hne
        simp only [pairItems, flatRaw, optItem, List.flatMap_cons, List.flatMap_nil,
          if_neg hne', List.append_nil, hcq]
        rw [joinSpChars]
        conv_rhs => rw [h2]
        simp [joinSpChars]
    | cons q' qs' =>
      have hsp' : spacedMid q.2 = true ∧ spacedPairs (q' :: qs') = true := by
        simpa [spacedPairs] using hsp
      obtain ⟨hmid, hsp2⟩ := hsp'
      have hrec := ih (by simp) hsp2 hcanon'
      simp only [pairItems, List.flatMap_cons, List.cons_append] at hrec ⊢
      rw [joinSpChars_cons, List.flatMap_append, flatMap_space_cons, hrec]
      simp only [spacedMid, Bool.or_eq_true, Bool.and_eq_true, beq_iff_eq,
        Bool.not_eq_true'] at hmid
      rcases hmid with h2 | ⟨hne, h2⟩
      · have ht : trimChars q.2 = [] := by rw [h2]; rfl
        simp only [flatRaw, List.flatMap_cons, optItem, ht, if_pos rfl,
          List.flatMap_nil, List.nil_append, hcq, h2]
        simp
        decide
      · have hne' : trimChars q.2 ≠ [] := by
          intro hx; rw [hx] at hne; simp [List.isEmpty] at hne
        simp only [optItem, if_neg hne', flatRaw, List.flatMap_cons, hcq]
        conv_rhs => rw [h2]
        simp

theorem map_unitChars_optSpeech (t : List Char) :
    (optSpeech t).map unitChars = optItem (trimChars t) := by
  by_cases h : trimChars t = []
  · simp [optSpeech, optItem, h]
  · have hne : (⟨trimChars t⟩ : String) ≠ "" := by
      simpa [String.ext_iff] using h
    simp [optSpeech, optItem, h, unitChars, hne]

theorem map_unitChars_mkBlocks (t0 : List Char) (ps : List (List Char × List Char)) :
    (mkBlocks t0 ps).map unitChars = optItem (trimChars t0) ++ pairItems ps := by
  unfold mkBlocks pairItems
  rw [List.map_append, map_unitChars_optSpeech]
  congr 1
  induction ps with
  | nil => simp
  | cons q qs ih =>
    simp only [List.flatMap_cons, List.map_append, List.map_cons, ih]
    congr 1
    simp [unitChars, map_unitChars_optSpeech]

theorem joinSp_items (t0 : List Char) (ps : List (List Char × List Char))
    (hf : spacedFirst t0 ps = true) (hp : spacedPairs ps = true)
    (hc : ps.all canonicalPair = true) :
    joinSpChars (optItem (trimChars t0) ++ pairItems ps) = t0 ++ flatRaw ps := by
  cases ps with
  | nil =>
    have ht0 : t0 = trimChars t0 := by simpa [spacedFirst] using hf
    by_cases h : trimChars t0 = []
    · rw [ht0, h]
      simp [optItem, pairItems, flatRaw, joinSpChars]
    · rw [show optItem (trimChars t0) ++ pairItems [] = [trimChars t0] from by
        simp [optItem, pairItems, h]]
      simp [joinSpChars, flatRaw, ← ht0]
  | cons q qs =>
    have hs := joinSp_pairItems (q :: qs) (by simp) hp hc
    simp only [spacedFirst, Bool.or_eq_true, Bool.and_eq_true, beq_iff_eq,
      Bool.not_eq_true'] at hf
    rcases hf with h0 | ⟨hne, h0⟩
    · have ht : trimChars t0 = [] := by rw [h0]; rfl
      simp only [optItem, ht, if_pos rfl, List.nil_append, h0]
      exact hs
    · have hne' : trimChars t0 ≠ [] := by
        intro hx; rw [hx] at hne; simp [List.isEmpty] at hne
      simp only [optItem, if_neg hne', List.cons_append, List.nil_append]
      simp only [pairItems, List.flatMap_cons, List.cons_append] at hs ⊢
      rw [joinSpChars_cons, flatMap_space_cons, hs]
      conv_rhs => rw [h0]
      simp

/-- Congruence: segmentation factors through whitespace normalisation. -/
theorem parsePlaceholders_norm_congr (s₁ s₂ : String)
    (h : normString s₁ = normString s₂) :
    parsePlaceholders s₁ = parsePlaceholders s₂ := by
  have hd : normWs s₁.data = normWs s₂.data := congrArg String.data h
  unfold parsePlaceholders
  rw [hd]

/-! ## Helper facts for scripts without whitespace or markers -/

theorem dropWhile_isJsWs_eq_self {l : List Char} (h : ∀ c ∈ l, isJsWs c = false) :
    l.dropWhile isJsWs = l := by
  cases l with
  | nil => rfl
  | cons c cs => simp [List.dropWhile_cons, h c (List.mem_cons_self c cs)]

theorem trimChars_of_noWs {l : List Char} (h : ∀ c ∈ l, isJsWs c = false) :
    trimChars l = l := by
  unfold trimChars
  rw [dropWhile_isJsWs_eq_self h,
    dropWhile_isJsWs_eq_self (fun c hc => h c (List.mem_reverse.1 hc)),
    List.reverse_reverse]

theorem collapseWsGo_of_noWs :
    ∀ (l : List Char), (∀ c ∈ l, isJsWs c = false) → ∀ b, collapseWsGo b l = l := by
  intro l
  induction l with
  | nil => intro _ b; rfl
  | cons c cs ih =>
    intro h b
    have hc := h c (List.mem_cons_self c cs)
    simp only [collapseWsGo, hc, Bool.false_eq_true, if_false]
    rw [ih (fun x hx => h x (List.mem_cons_of_mem c hx)) false]

theorem normWs_of_noWs {l : List Char} (h : ∀ c ∈ l, isJsWs c = false) :
    normWs l = l := by
  unfold normWs collapseWs
  rw [collapseWsGo_of_noWs l h false, trimChars_of_noWs h]

theorem splitPausesGo_of_noBrace :
    ∀ (fuel : Nat) (l : List Char), (∀ c ∈ l, c ≠ '{') → l.length < fuel →
      splitPausesGo fuel l = (l, []) := by
  intro fuel
  induction fuel with
  | zero => intro l _ hl; omega
  | succ f ih =>
    intro l h hl
    cases l with
    | nil => rfl
    | cons c cs =>
      have hm : parseMarkerAt (c :: cs) = none := by
        unfold parseMarkerAt
        have hd : dropLit pauseOpen (c :: cs) = none := by
          have hc := h c (List.mem_cons_self c cs)
          simp [pauseOpen, dropLit, hc]
        rw [hd]
        rfl
      simp only [splitPausesGo, hm]
      rw [ih cs (fun x hx => h x (List.mem_cons_of_mem c hx))
        (by simp only [List.length_cons] at hl; omega)]

/-- A 4001-character script with no whitespace and no markers. -/
def bigScript : String := ⟨List.replicate 4001 'a'⟩

theorem parsePlaceholders_big : parsePlaceholders bigScript = [⟨bigScript, 0⟩] := by
  have hno : ∀ c ∈ List.replicate 4001 'a', isJsWs c = false := by
    intro c hc
    rw [List.eq_of_mem_replicate hc]
    rfl
  have hnb : ∀ c ∈ List.replicate 4001 'a', c ≠ '{' := by
    intro c hc
    rw [List.eq_of_mem_replicate hc]
    decide
  have hdata : bigScript.data = List.replicate 4001 'a' := rfl
  have hn : normWs bigScript.data = List.replicate 4001 'a' := by
    rw [hdata, normWs_of_noWs hno]
  have hsp : splitPauses (List.replicate 4001 'a') = (List.replicate 4001 'a', []) := by
    unfold splitPauses
    apply splitPausesGo_of_noBrace _ _ hnb
    omega
  rw [parsePlaceholders_eq_mkBlocks, hn, hsp]
  unfold mkBlocks optSpeech
  rw [trimChars_of_noWs hno]
  have hne : List.replicate 4001 'a' ≠ ([] : List Char) := by
    intro h
    have := congrArg List.length h
    rw [List.length_replicate, List.length_nil] at this
    omega
  rw [if_neg hne]
  rfl

/-! ## Server state: the shared caches and the filesystem -/

/-- An audioChunkCache entry: { path, timestamp }. -/
structure ChunkEntry where
  path : String
  timestamp : Nat
deriving DecidableEq, Repr

/-- A mergeCache entry: { path, url, timestamp }. -/
structure MergeEntry where
  path : String
  url : String
  timestamp : Nat
deriving DecidableEq, Repr

/-- The process-wide mutable state the routes touch: the three cache maps
(JS Maps as association lists with unique keys, the silence cache keyed
by the rounded duration expressed in tenths of a second), the Redis
connection when available (its string store), and the set of files
existing on disk. -/
structure SrvState where
  audioChunkCache : List (String × ChunkEntry)
  silenceCache : List (Int × String)
  mergeCache : List (String × MergeEntry)
  redis : Option (List (String × String))
  files : List String
deriving DecidableEq, Repr

def emptySrvState : SrvState := ⟨[], [], [], none, []⟩

/-- JS Map.prototype.set: replace the value at an existing key in place,
or append a new key at the end. -/
def assocSet {α β : Type} [BEq α] : List (α × β) → α → β → List (α × β)
  | [], k, v => [(k, v)]
  | (k', v') :: rest, k, v =>
    if k' == k then (k, v) :: rest else (k', v') :: assocSet rest k v

/-- generateChunkCacheKey: the md5 fingerprint of text-voice-model,
modelled by the hashed data string itself (md5 maps equal inputs to equal
outputs, which is the only property used). -/
def generateChunkCacheKey (text voice model : String) : String :=
  text ++ "-" ++ voice ++ "-" ++ model

/-! ## The silence synthesizer and its cache -/

/-- JS Math.round: round half toward positive infinity, that is the
floor of the argument plus one half. -/
def jsRound (q : ℚ) : ℤ := ⌊q + 1 / 2⌋

/-- The silence cache key Math.round(seconds * 10) / 10, represented by
its value in tenths of a second (two keys are equal exactly when their
tenths agree). -/
def silenceKeyTenths (seconds : ℚ) : ℤ := jsRound (seconds * 10)

/-- JS template formatting of the one-decimal key (2 prints as 2,
21 tenths prints as 2.1). -/
def tenthsToString (t : ℤ) : String :=
  if t % 10 = 0 then toString (t / 10)
  else toString (t / 10) ++ "." ++ toString (t % 10)

def silenceFileName (t : ℤ) : String := "silence-" ++ tenthsToString t ++ "s.mp3"

/-- getOrCreateSilence (part_002 lines 59-78): look the rounded key up in
SILENCE_CACHE; on a miss reuse a silence file already on disk, or
generate one through the ffmpeg oracle gen, and register the key.  This
cache has no TTL. -/
def getOrCreateSilence (gen : Except String Unit) (st : SrvState) (seconds : ℚ) :
    Except String (String × SrvState) :=
  let key := silenceKeyTenths seconds
  match st.silenceCache.lookup key with
  | some p => .ok (p, st)
  | none =>
    let silenceFile := silenceFileName key
    if st.files.contains silenceFile then
      .ok (silenceFile, { st with silenceCache := assocSet st.silenceCache key silenceFile })
    else
      match gen with
      | .error e => .error e
      | .ok _ =>
        .ok (silenceFile,
          { st with
              silenceCache := assocSet st.silenceCache key silenceFile,
              files := silenceFile :: st.files })

/-! ## Per-unit TTS generation -/

/-- generateTTSForBlock of part_002 (lines 135-173): a silence block goes
to getOrCreateSilence, an empty block yields null, and a speech block is
served from the chunk cache when its file still exists, otherwise the
synthesis oracle runs, the chunk is written to chunk-<key>.mp3 and the
cache entry is set.  There is no try/catch in this variant: an oracle
rejection or the null-response error propagates to the caller. -/
def generateTTSForBlock (synth : String → Except String (Option (List Nat)))
    (gen : Except String Unit) (voice model : String) (now : Nat)
    (st : SrvState) (b : Block) : Except String (Option String × SrvState) :=
  if b.text = "" then
    if b.pause > 0 then
      (getOrCreateSilence gen st (b.pause : ℚ)).map fun r => (some r.1, r.2)
    else .ok (none, st)
  else
    let cacheKey := generateChunkCacheKey b.text voice model
    let hit :=
      match st.audioChunkCache.lookup cacheKey with
      | some e => if st.files.contains e.path then some e.path else none
      | none => none
    match hit with
    | some p => .ok (some p, st)
    | none =>
      match synth b.text with
      | .error e => .error e
      | .ok none => .error "No response from OpenAI TTS API"
      | .ok (some _) =>
        let outPath := "chunk-" ++ cacheKey ++ ".mp3"
        .ok (some outPath,
          { st with
              audioChunkCache := assocSet st.audioChunkCache cacheKey ⟨outPath, now⟩,
              files := outPath :: st.files })

namespace TtsRoutes

/-- The body of generateTTSForBlock in server/routes/ttsRoutes.js
(lines 511-577) before the catch: the part_002 body preceded by a Redis
lookup of tts:<key> when the connection is ready, and followed by a Redis
store of the fresh path.  State is only mutated on the success paths, as
in the source. -/
def generateTTSForBlockCore (synth : String → Except String (Option (List Nat)))
    (gen : Except String Unit) (voice model : String) (now : Nat)
    (st : SrvState) (b : Block) : Except String (Option String × SrvState) :=
  if b.text = "" then
    if b.pause > 0 then
      (getOrCreateSilence gen st (b.pause : ℚ)).map fun r => (some r.1, r.2)
    else .ok (none, st)
  else
    let cacheKey := generateChunkCacheKey b.text voice model
    let redisHit :=
      match st.redis with
      | some kv =>
        match kv.lookup ("tts:" ++ cacheKey) with
        | some p => if st.files.contains p then some p else none
        | none => none
      | none => none
    match redisHit with
    | some p => .ok (some p, st)
    | none =>
      let hit :=
        match st.audioChunkCache.lookup cacheKey with
        | some e => if st.files.contains e.path then some e.path else none
        | none => none
      match hit with
      | some p => .ok (some p, st)
      | none =>
        match synth b.text with
        | .error e => .error e
        | .ok none => .error "No response from OpenAI TTS API"
        | .ok (some _) =>
          let outPath := "chunk-" ++ cacheKey ++ ".mp3"
          .ok (some outPath,
            { st with
                redis := st.redis.map fun kv => assocSet kv ("tts:" ++ cacheKey) outPath,
                audioChunkCache := assocSet st.audioChunkCache cacheKey ⟨outPath, now⟩,
                files := outPath :: st.files })

/-- generateTTSForBlock in server/routes/ttsRoutes.js: the whole body is
wrapped in try/catch, so any failure is caught and returned as null for
this block; since the body mutates state only on success, the state at
the catch is the entry state. -/
def generateTTSForBlock (synth : String → Except String (Option (List Nat)))
    (gen : Except String Unit) (voice model : String) (now : Nat)
    (st : SrvState) (b : Block) : Option String × SrvState :=
  match generateTTSForBlockCore synth gen voice model now st b with
  | .ok r => r
  | .error _ => (none, st)

end TtsRoutes

/-! ## The batch coordinator of the generate-audio route -/

/-- Run the per-block step over the blocks left to right, threading the
shared state; the i-th result slot corresponds to the i-th block, and a
rejection of any step rejects the whole run, as Promise.all does.
Within-batch concurrency over the shared caches is modelled by this
left-to-right schedule; Promise.all returns results positionally, so the
slot order does not depend on the schedule. -/
def runUnits (step : SrvState → Block → Except String (Option String × SrvState)) :
    SrvState → List Block → Except String (List (Option String) × SrvState)
  | st, [] => .ok ([], st)
  | st, b :: bs =>
    match step st b with
    | .error e => .error e
    | .ok (r, st') =>
      match runUnits step st' bs with
      | .error e => .error e
      | .ok (rs, st'') => .ok (r :: rs, st'')

def MAX_CONCURRENT : Nat := 25

/-- The batch loop of the generate-audio route (part_002 lines 259-269):
slice off up to 25 blocks, await their results together, append the
non-null results to chunkFiles, and continue with the next batch.  The
fuel is the number of remaining blocks, which bounds the number of
batches. -/
def processBatchesGo (step : SrvState → Block → Except String (Option String × SrvState)) :
    Nat → SrvState → List Block → Except String (List String × SrvState)
  | _, st, [] => .ok ([], st)
  | 0, st, _ :: _ => .ok ([], st)
  | fuel + 1, st, b :: bs =>
    match runUnits step st ((b :: bs).take MAX_CONCURRENT) with
    | .error e => .error e
    | .ok (rs, st') =>
      match processBatchesGo step fuel st' ((b :: bs).drop MAX_CONCURRENT) with
      | .error e => .error e
      | .ok (fs, st'') => .ok (rs.filterMap id ++ fs, st'')

def processBatches (step : SrvState → Block → Except String (Option String × SrvState))
    (st : SrvState) (blocks : List Block) : Except String (List String × SrvState) :=
  processBatchesGo step blocks.length st blocks

/-- The generate-audio route body (part_002 lines 242-298): reject empty
text, segment, process in batches, and fail when no chunk files were
produced; otherwise the ordered chunk-file list is handed to
mergeChunksEfficiently. -/
def generateAudio (step : SrvState → Block → Except String (Option String × SrvState))
    (st : SrvState) (text : String) : Except String (List String × SrvState) :=
  if text = "" then .error "No text provided"
  else
    match processBatches step st (parsePlaceholders text) with
    | .error e => .error e
    | .ok (chunkFiles, st') =>
      if chunkFiles = [] then .error "No audio chunks were generated"
      else .ok (chunkFiles, st')

/-! ## The assembler (mergeChunksEfficiently, part_002 lines 178-237) -/

def squote : String := ⟨['\x27']⟩

/-- One line of the concat demuxer list file (part_002 line 192). -/
def manifestLine (f : String) : String := "file " ++ squote ++ f ++ squote

/-- What the assembler does with the ordered file list: error on zero
files, verbatim copy of a single file, or a concat demuxer run over the
list-file lines written in the order of the input. -/
inductive AssemblyPlan where
  | copySingle (f : String)
  | concatList (manifest : List String)
deriving DecidableEq, Repr

def mergeChunksEfficiently : List String → Except String AssemblyPlan
  | [] => .error "No files to merge"
  | [f] => .ok (.copySingle f)
  | f :: g :: rest => .ok (.concatList ((f :: g :: rest).map manifestLine))

/-! ## The batch loop is the sequential per-unit run with a final filter -/

theorem runUnits_append (step : SrvState → Block → Except String (Option String × SrvState))
    (l₁ l₂ : List Block) : ∀ st : SrvState,
    runUnits step st (l₁ ++ l₂) =
      match runUnits step st l₁ with
      | .error e => .error e
      | .ok (rs, st') =>
        match runUnits step st' l₂ with
        | .error e => .error e
        | .ok (rs', st'') => .ok (rs ++ rs', st'') := by
  induction l₁ with
  | nil =>
    intro st
    simp only [List.nil_append, runUnits]
    cases h : runUnits step st l₂ with
    | error e => rfl
    | ok p => rfl
  | cons b bs ih =>
    intro st
    simp only [List.cons_append, runUnits]
    cases h0 : step st b with
    | error e => rfl
    | ok r =>
      obtain ⟨v, st'⟩ := r
      dsimp only
      rw [List.append_eq, ih st']
      cases h1 : runUnits step st' bs with
      | error e => rfl
      | ok p =>
        obtain ⟨rs, st''⟩ := p
        cases h2 : runUnits step st'' l₂ with
        | error e => simp [h2]
        | ok q =>
          obtain ⟨rs', st₃⟩ := q
          simp [h2]

theorem processBatchesGo_eq (step : SrvState → Block → Except String (Option String × SrvState)) :
    ∀ (fuel : Nat) (blocks : List Block) (st : SrvState), blocks.length ≤ fuel →
      processBatchesGo step fuel st blocks =
        (runUnits step st blocks).map (fun r => (r.1.filterMap id, r.2)) := by
  intro fuel
  induction fuel with
  | zero =>
    intro blocks st h
    have hb : blocks = [] := List.eq_nil_of_length_eq_zero (Nat.le_zero.mp h)
    subst hb
    rfl
  | succ f ih =>
    intro blocks st h
    cases blocks with
    | nil => rfl
    | cons b bs =>
      conv_rhs => rw [← List.take_append_drop MAX_CONCURRENT (b :: bs)]
      rw [runUnits_append]
      simp only [processBatchesGo]
      cases h1 : runUnits step st ((b :: bs).take MAX_CONCURRENT) with
      | error e => rfl
      | ok p =>
        obtain ⟨rs, st'⟩ := p
        have hlen : ((b :: bs).drop MAX_CONCURRENT).length ≤ f := by
          rw [List.length_drop]
          simp only [List.length_cons] at h ⊢
          have : (1 : Nat) ≤ MAX_CONCURRENT := by decide
          omega
        dsimp only
        rw [ih ((b :: bs).drop MAX_CONCURRENT) st' hlen]
        cases h2 : runUnits step st' ((b :: bs).drop MAX_CONCURRENT) with
        | error e => rfl
        | ok q =>
          obtain ⟨rs', st''⟩ := q
          simp [Except.map, List.filterMap_append]

theorem processBatches_eq (step : SrvState → Block → Except String (Option String × SrvState))
    (st : SrvState) (blocks : List Block) :
    processBatches step st blocks =
      (runUnits step st blocks).map (fun r => (r.1.filterMap id, r.2)) :=
  processBatchesGo_eq step blocks.length blocks st (Nat.le_refl _)

/-- The sequential run of a total (never-rejecting) per-unit step. -/
def runUnitsTotal (step : SrvState → Block → Option String × SrvState) :
    SrvState → List Block → List (Option String) × SrvState
  | st, [] => ([], st)
  | st, b :: bs =>
    let r := step st b
    let rest := runUnitsTotal step r.2 bs
    (r.1 :: rest.1, rest.2)

theorem runUnits_of_total (step : SrvState → Block → Option String × SrvState) :
    ∀ (blocks : List Block) (st : SrvState),
      runUnits (fun s u => .ok (step s u)) st blocks = .ok (runUnitsTotal step st blocks) := by
  intro blocks
  induction blocks with
  | nil => intro st; rfl
  | cons b bs ih =>
    intro st
    simp only [runUnits, runUnitsTotal, ih]

theorem runUnitsTotal_length (step : SrvState → Block → Option String × SrvState) :
    ∀ (blocks : List Block) (st : SrvState),
      (runUnitsTotal step st blocks).1.length = blocks.length := by
  intro blocks
  induction blocks with
  | nil => intro st; rfl
  | cons b bs ih => intro st; simp [runUnitsTotal, ih]

/-! ## The merge cache and the mix-with-music route -/

/-- generateMergeCacheKey: the md5 fingerprint of
ttsUrl-musicUrl-musicVolume, modelled by the hashed data string (the
volume is stringified; only value-determinism of the formatting is
used). -/
def generateMergeCacheKey (ttsUrl musicUrl : String) (volume : ℚ) : String :=
  ttsUrl ++ "-" ++ musicUrl ++ "-" ++ toString volume

/-- The body of a mix-with-music request. -/
structure MixReq where
  ttsUrl : String
  musicUrl : String
  musicVolume : ℚ
  ttsVolume : ℚ
deriving DecidableEq, Repr

/-- The responses the mix-with-music route can produce. -/
inductive MixRes where
  | badRequest
  | notFound
  | ok (mixedAudioUrl : String) (cached : Bool)
  | error (details : String)
deriving DecidableEq, Repr

/-- path.join of the public directory with a request URL. -/
def resolvePublic (u : String) : String := "public" ++ u

/-- The mix-with-music route (part_002 lines 335-466; ttsRoutes.js lines
655-730 agrees on everything modelled here): validate both URLs, resolve
and check both files, consult the merge cache keyed by
generateMergeCacheKey(ttsUrl, musicUrl, musicVolume) — ttsVolume never
reaches the key — and serve a hit whose file still exists as cached;
otherwise run the mix through the ffmpeg oracle, write
merged-(key).mp3, register the cache entry and respond uncached. -/
def mixWithMusic (mixOk : Bool) (now : Nat) (st : SrvState) (r : MixReq) :
    MixRes × SrvState :=
  if r.ttsUrl = "" ∨ r.musicUrl = "" then (.badRequest, st)
  else if st.files.contains (resolvePublic r.ttsUrl) = false ∨
      st.files.contains (resolvePublic r.musicUrl) = false then (.notFound, st)
  else
    let cacheKey := generateMergeCacheKey r.ttsUrl r.musicUrl r.musicVolume
    let outputFileName := "merged-" ++ cacheKey ++ ".mp3"
    let outputPath := "audioDir/" ++ outputFileName
    let outputUrl := "/audio/" ++ outputFileName
    let miss : MixRes × SrvState :=
      if mixOk then
        (.ok outputUrl false,
          { st with
              mergeCache := assocSet st.mergeCache cacheKey ⟨outputPath, outputUrl, now⟩,
              files := outputPath :: st.files })
      else (.error "Failed to merge audio", st)
    match st.mergeCache.lookup cacheKey with
    | some e => if st.files.contains e.path then (.ok e.url true, st) else miss
    | none => miss

/-! ## The TTL caches and their sweeps -/

def CHUNK_CACHE_DURATION : Nat := 24 * 60 * 60 * 1000

def MERGE_CACHE_DURATION : Nat := 24 * 60 * 60 * 1000

/-- The setInterval period of the chunk-cache sweep is the retention
window itself. -/
def chunkSweepPeriodMs : Nat := CHUNK_CACHE_DURATION

/-- The setInterval period of the merge-cache sweep is the retention
window itself. -/
def mergeSweepPeriodMs : Nat := MERGE_CACHE_DURATION

def chunkExpired (now : Nat) (e : ChunkEntry) : Bool :=
  decide (CHUNK_CACHE_DURATION < now - e.timestamp)

def mergeExpired (now : Nat) (e : MergeEntry) : Bool :=
  decide (MERGE_CACHE_DURATION < now - e.timestamp)

/-- One run of the chunk-cache sweep (ttsRoutes.js lines 393-404,
part_002 lines 39-50): every entry whose age exceeds the retention
window has its file deleted (deletion of an absent file is skipped) and
its map entry removed, unconditionally and with no regard to accesses
since creation. -/
def sweepChunkCache (now : Nat) (st : SrvState) : SrvState :=
  let expiredPaths :=
    (st.audioChunkCache.filter fun kv => chunkExpired now kv.2).map fun kv => kv.2.path
  { st with
      audioChunkCache := st.audioChunkCache.filter fun kv => !(chunkExpired now kv.2),
      files := st.files.filter fun p => decide (p ∉ expiredPaths) }

/-- One run of the merge-cache sweep (part_002 lines 313-323,
ttsRoutes.js lines 633-643), identical in shape to the chunk sweep. -/
def sweepMergeCache (now : Nat) (st : SrvState) : SrvState :=
  let expiredPaths :=
    (st.mergeCache.filter fun kv => mergeExpired now kv.2).map fun kv => kv.2.path
  { st with
      mergeCache := st.mergeCache.filter fun kv => !(mergeExpired now kv.2),
      files := st.files.filter fun p => decide (p ∉ expiredPaths) }

/-! ## Duration semantics of the two mixing filter graphs

The transcoding engine is an external collaborator; the standard duration
behaviour of the four ffmpeg filters appearing in the two graphs is
modelled on the domain of rational durations extended with an unbounded
top element. -/

/-- aloop with loop=-1 repeats the clip without bound: any stream of
positive length becomes unbounded. -/
def aloopInfiniteDuration (d : ℚ) : WithTop ℚ :=
  if d = 0 then (0 : ℚ) else ⊤

/-- atrim=0:end cuts the stream at the bound. -/
def atrimDuration (limit : ℚ) (d : WithTop ℚ) : WithTop ℚ :=
  min d (limit : WithTop ℚ)

/-- amerge stops when its shortest input ends. -/
def amergeDuration (a b : WithTop ℚ) : WithTop ℚ := min a b

/-- amix with duration=longest ends when its longest input ends. -/
def amixLongestDuration (a b : WithTop ℚ) : WithTop ℚ := max a b

/-- Output duration of the part_002 mix graph (lines 393-398): the music
is looped indefinitely, trimmed to the probed speech duration and merged
with the speech stream; volume filters keep durations. -/
def mixDurationP2 (ttsDuration musicDuration : ℚ) : WithTop ℚ :=
  amergeDuration (ttsDuration : WithTop ℚ)
    (atrimDuration ttsDuration (aloopInfiniteDuration musicDuration))

/-- Output duration of the ttsRoutes.js mix graph (lines 691-695): no
looping or trimming, amix with duration=longest. -/
def TtsRoutes.mixDuration (ttsDuration musicDuration : ℚ) : WithTop ℚ :=
  amixLongestDuration (ttsDuration : WithTop ℚ) (musicDuration : WithTop ℚ)

/-! ## Claim theorems -/

/-- Claim C1: for every script and per-unit step, the chunk-file list the
generate-audio route hands to the concatenation step equals the in-order
null-filtered sequence of per-unit results of the segmented units — the
25-per-batch Promise.all loop is exactly the plain sequential per-unit
run followed by the filter, so it never reorders, drops a successful
unit, or duplicates one — and the assembler concatenates in exactly the
order received: on two or more files its concat manifest is the
line-for-line, position-for-position image of the input list. -/
theorem C1_end_to_end_order :
    (∀ (step : SrvState → Block → Except String (Option String × SrvState))
        (st : SrvState) (script : String),
      processBatches step st (parsePlaceholders script) =
        (runUnits step st (parsePlaceholders script)).map
          (fun r => (r.1.filterMap id, r.2))) ∧
    (∀ (f g : String) (rest : List String),
      mergeChunksEfficiently (f :: g :: rest) =
        .ok (.concatList ((f :: g :: rest).map manifestLine))) ∧
    (∀ (files : List String) (i : Nat),
      (files.map manifestLine)[i]? = (files[i]?).map manifestLine) := by
  refine ⟨fun step st script => processBatches_eq step st (parsePlaceholders script),
    fun f g rest => rfl, fun files i => ?_⟩
  simp [List.getElem?_map]

/-- Claim C2 counterexample: for the script A followed immediately by a
pause marker and B, with no whitespace around the marker, the
single-space reconstruction of the unit sequence differs from the
whitespace-normalised script. -/
theorem C2_counterexample :
    reconstructScript (parsePlaceholders "A\x7b\x7bPAUSE_2s\x7d\x7dB") ≠
      normString "A\x7b\x7bPAUSE_2s\x7d\x7dB" := by decide

/-- Claim C2 (amended): whenever every pause marker of the normalised
script is separated from adjacent text by a space (or stands at a
boundary) and its digits are the canonical decimal numeral, the
single-space reconstruction of the unit sequence is exactly the
whitespace-normalised script; and segmentation depends only on the
whitespace-normalised script, so two scripts with equal normalisations
segment to identical unit sequences. -/
theorem C2_amended (s : String)
    (hws : wellSpacedSplit (splitPauses (normWs s.data)) = true) :
    reconstructScript (parsePlaceholders s) = normString s ∧
      ∀ s₁ s₂ : String, normString s₁ = normString s₂ →
        parsePlaceholders s₁ = parsePlaceholders s₂ := by
  constructor
  · simp only [wellSpacedSplit, Bool.and_eq_true] at hws
    obtain ⟨⟨hf, hp⟩, hc⟩ := hws
    rw [parsePlaceholders_eq_mkBlocks]
    unfold reconstructScript normString
    refine congrArg String.mk ?_
    rw [map_unitChars_mkBlocks, joinSp_items _ _ hf hp hc]
    exact splitPauses_join (normWs s.data)
  · exact fun s₁ s₂ h => parsePlaceholders_norm_congr s₁ s₂ h

theorem C2_amended_witness :
    wellSpacedSplit
        (splitPauses (normWs ("Hi \x7b\x7bPAUSE_2s\x7d\x7d there" : String).data)) = true ∧
      reconstructScript (parsePlaceholders "Hi \x7b\x7bPAUSE_2s\x7d\x7d there") =
        normString "Hi \x7b\x7bPAUSE_2s\x7d\x7d there" :=
  ⟨by decide, (C2_amended "Hi \x7b\x7bPAUSE_2s\x7d\x7d there" (by decide)).1⟩

/-- Claim C5 counterexample: segmentation performs no length-bounded
splitting: a 4001-character marker-free script becomes a single speech
unit whose text exceeds the 4000-character bound. -/
theorem C5_counterexample :
    ∃ b ∈ parsePlaceholders bigScript, 4000 < b.text.length := by
  refine ⟨⟨bigScript, 0⟩, ?_, ?_⟩
  · rw [parsePlaceholders_big]
    exact List.mem_singleton.mpr rfl
  · show 4000 < bigScript.length
    have hl : bigScript.length = 4001 := by
      show (List.replicate 4001 'a').length = 4001
      rw [List.length_replicate]
    omega

/-- Claim C5 (amended): segmentation never splits a text piece at all:
every unit is a silence unit or a speech unit whose text is exactly the
trimmed text of one inter-marker piece of the normalised script — so a
unit can exceed 4000 characters when its piece does, and no
period-or-comma boundary splitting exists. -/
theorem C5_amended (s : String) :
    ∀ b ∈ parsePlaceholders s,
      b.text = "" ∨
      b.text = ⟨trimChars (splitPauses (normWs s.data)).1⟩ ∨
      ∃ p ∈ (splitPauses (normWs s.data)).2, b.text = ⟨trimChars p.2⟩ := by
  intro b hb
  rw [parsePlaceholders_eq_mkBlocks] at hb
  unfold mkBlocks at hb
  rcases List.mem_append.mp hb with h1 | h2
  · unfold optSpeech at h1
    by_cases hc : trimChars (splitPauses (normWs s.data)).1 = []
    · rw [if_pos hc] at h1
      exact absurd h1 (List.not_mem_nil _)
    · rw [if_neg hc] at h1
      rcases List.mem_singleton.mp h1 with rfl
      right; left; rfl
  · rw [List.mem_flatMap] at h2
    obtain ⟨p, hp, hbp⟩ := h2
    rcases List.mem_cons.mp hbp with rfl | h3
    · left; rfl
    · unfold optSpeech at h3
      by_cases hc : trimChars p.2 = []
      · rw [if_pos hc] at h3
        exact absurd h3 (List.not_mem_nil _)
      · rw [if_neg hc] at h3
        rcases List.mem_singleton.mp h3 with rfl
        right; right
        exact ⟨p, hp, rfl⟩

theorem C5_amended_witness :
    (⟨"hi", 0⟩ : Block) ∈ parsePlaceholders "hi" ∧
      ((⟨"hi", 0⟩ : Block).text = "" ∨
        (⟨"hi", 0⟩ : Block).text = ⟨trimChars (splitPauses (normWs ("hi" : String).data)).1⟩ ∨
        ∃ p ∈ (splitPauses (normWs ("hi" : String).data)).2,
          (⟨"hi", 0⟩ : Block).text = ⟨trimChars p.2⟩) :=
  ⟨by decide, C5_amended "hi" ⟨"hi", 0⟩ (by decide)⟩

/-- Claim C4 counterexample: the ttsRoutes.js mix graph uses amix with
duration=longest and neither loops nor trims the music, so mixing a
10-second speech track with a 60-second music track yields a 60-second
output instead of the speech duration. -/
theorem C4_counterexample :
    TtsRoutes.mixDuration 10 60 = ((60 : ℚ) : WithTop ℚ) ∧
      ((60 : ℚ) : WithTop ℚ) ≠ ((10 : ℚ) : WithTop ℚ) := by
  constructor
  · show max ((10 : ℚ) : WithTop ℚ) ((60 : ℚ) : WithTop ℚ) = ((60 : ℚ) : WithTop ℚ)
    rw [max_eq_right]
    exact_mod_cast (by norm_num : (10 : ℚ) ≤ 60)
  · intro h
    rw [WithTop.coe_eq_coe] at h
    norm_num at h

/-- Claim C4 (amended): the part_002 graph loops the music indefinitely,
trims it to exactly the probed speech duration and merges, so for every
nonnegative speech duration and positive music duration the output
duration equals the speech duration (speech is never truncated or
extended); the ttsRoutes.js amix graph instead yields the longer of the
two track durations, which equals the speech duration only when the
music is not longer than the speech. -/
theorem C4_amended (t m : ℚ) (hm : 0 < m) :
    mixDurationP2 t m = (t : WithTop ℚ) ∧
      TtsRoutes.mixDuration t m = max ((t : ℚ) : WithTop ℚ) ((m : ℚ) : WithTop ℚ) := by
  constructor
  · unfold mixDurationP2 amergeDuration atrimDuration aloopInfiniteDuration
    rw [if_neg (ne_of_gt hm), min_eq_right le_top, min_self]
  · rfl

theorem C4_amended_witness :
    ((0 : ℚ) < 10) ∧ mixDurationP2 60 10 = ((60 : ℚ) : WithTop ℚ) :=
  ⟨by norm_num, (C4_amended 60 10 (by norm_num)).1⟩

/-- Claim C6 counterexample: the script hello PAUSE_0s world parses its
non-positive marker into a pause-0 silence unit, the per-unit generator
maps that unit to null, and the request succeeds with both speech chunks
and the unit silently dropped — no segmentation or configuration error
is raised. -/
theorem C6_counterexample :
    parsePlaceholders "hello \x7b\x7bPAUSE_0s\x7d\x7d world" =
      [⟨"hello", 0⟩, ⟨"", 0⟩, ⟨"world", 0⟩] ∧
    ∃ st' : SrvState,
      generateAudio
        (generateTTSForBlock (fun _ => .ok (some [0])) (.ok ()) "alloy" "tts-1" 0)
        emptySrvState "hello \x7b\x7bPAUSE_0s\x7d\x7d world" =
        .ok (["chunk-hello-alloy-tts-1.mp3", "chunk-world-alloy-tts-1.mp3"], st') :=
  ⟨by decide, ⟨_, rfl⟩⟩

/-- Claim C6 (amended): a marker with a non-positive integer parses into
a silence unit with pause 0; both per-unit generator variants map such a
unit to null with no error and unchanged state, so it is silently
dropped by the chunk-file filter, and the request as a whole fails only
when the resulting chunk-file list is empty. -/
theorem C6_amended
    (synth : String → Except String (Option (List Nat)))
    (gen : Except String Unit) (voice model : String) (now : Nat)
    (st : SrvState) (b : Block) (ht : b.text = "") (hp : b.pause = 0) :
    generateTTSForBlock synth gen voice model now st b = .ok (none, st) ∧
    TtsRoutes.generateTTSForBlock synth gen voice model now st b = (none, st) ∧
    ∀ (step : SrvState → Block → Except String (Option String × SrvState))
        (text : String) (st₀ : SrvState) (files : List String) (st' : SrvState),
      text ≠ "" →
      processBatches step st₀ (parsePlaceholders text) = .ok (files, st') →
      files ≠ [] →
      generateAudio step st₀ text = .ok (files, st') := by
  refine ⟨?_, ?_, ?_⟩
  · simp [generateTTSForBlock, ht, hp]
  · simp [TtsRoutes.generateTTSForBlock, TtsRoutes.generateTTSForBlockCore, ht, hp]
  · intro step text st₀ files st' htext hproc hne
    simp [generateAudio, htext, hproc, hne]

theorem C6_amended_witness :
    ((⟨"", 0⟩ : Block).text = "" ∧ (⟨"", 0⟩ : Block).pause = 0) ∧
      generateTTSForBlock (fun _ => .ok (some [0])) (.ok ()) "alloy" "tts-1" 0
        emptySrvState ⟨"", 0⟩ = .ok (none, emptySrvState) :=
  ⟨⟨rfl, rfl⟩,
    (C6_amended (fun _ => .ok (some [0])) (.ok ()) "alloy" "tts-1" 0
      emptySrvState ⟨"", 0⟩ rfl rfl).1⟩

/-- Claim C10: the chunk cache key hashes the single joined string
text-voice-model, so the distinct triples (a-b, c, m) and (a, b-c, m)
share the joined string a-b-c-m and hence the same cache key, and with
that key cached each of the two different requests is served the same
cached audio without invoking synthesis. -/
theorem C10_chunk_key_collision :
    generateChunkCacheKey "a-b" "c" "m" = generateChunkCacheKey "a" "b-c" "m" ∧
    (("a-b", "c") : String × String) ≠ ("a", "b-c") ∧
    generateTTSForBlock (fun _ => .error "not invoked") (.ok ()) "c" "m" 0
      ⟨[("a-b-c-m", ⟨"cached.mp3", 0⟩)], [], [], none, ["cached.mp3"]⟩ ⟨"a-b", 0⟩ =
      .ok (some "cached.mp3",
        ⟨[("a-b-c-m", ⟨"cached.mp3", 0⟩)], [], [], none, ["cached.mp3"]⟩) ∧
    generateTTSForBlock (fun _ => .error "not invoked") (.ok ()) "b-c" "m" 0
      ⟨[("a-b-c-m", ⟨"cached.mp3", 0⟩)], [], [], none, ["cached.mp3"]⟩ ⟨"a", 0⟩ =
      .ok (some "cached.mp3",
        ⟨[("a-b-c-m", ⟨"cached.mp3", 0⟩)], [], [], none, ["cached.mp3"]⟩) := by
  exact ⟨rfl, by decide, rfl, rfl⟩

/-- Claim C8: the silence synthesizer keys its cache by the duration
rounded to one decimal: 2.00s and 2.04s both round to 2.0 (20 tenths)
and, run in sequence on a fresh state, return the same artifact
silence-2s.mp3, while 2.06s rounds to 2.1 and returns the different
artifact silence-2.1s.mp3. -/
theorem C8_silence_cache_rounding :
    silenceKeyTenths 2 = 20 ∧ silenceKeyTenths (51 / 25 : ℚ) = 20 ∧
    silenceKeyTenths (103 / 50 : ℚ) = 21 ∧
    ∃ p1 st1 p2 st2 p3 st3,
      getOrCreateSilence (.ok ()) emptySrvState 2 = .ok (p1, st1) ∧
      getOrCreateSilence (.ok ()) st1 (51 / 25 : ℚ) = .ok (p2, st2) ∧
      getOrCreateSilence (.ok ()) st2 (103 / 50 : ℚ) = .ok (p3, st3) ∧
      p1 = p2 ∧ p1 ≠ p3 ∧ p1 = "silence-2s.mp3" ∧ p3 = "silence-2.1s.mp3" := by
  have h1 : silenceKeyTenths 2 = 20 := by norm_num [silenceKeyTenths, jsRound]
  have h2 : silenceKeyTenths (51 / 25 : ℚ) = 20 := by
    norm_num [silenceKeyTenths, jsRound]
  have h3 : silenceKeyTenths (103 / 50 : ℚ) = 21 := by
    norm_num [silenceKeyTenths, jsRound]
  have e1 : getOrCreateSilence (.ok ()) emptySrvState 2 =
      .ok ("silence-2s.mp3",
        ⟨[], [(20, "silence-2s.mp3")], [], none, ["silence-2s.mp3"]⟩) := by
    simp only [getOrCreateSilence, h1]
    decide
  have e2 : getOrCreateSilence (.ok ())
      (⟨[], [(20, "silence-2s.mp3")], [], none, ["silence-2s.mp3"]⟩ : SrvState)
      (51 / 25 : ℚ) =
      .ok ("silence-2s.mp3",
        ⟨[], [(20, "silence-2s.mp3")], [], none, ["silence-2s.mp3"]⟩) := by
    simp only [getOrCreateSilence, h2]
    decide
  have e3 : getOrCreateSilence (.ok ())
      (⟨[], [(20, "silence-2s.mp3")], [], none, ["silence-2s.mp3"]⟩ : SrvState)
      (103 / 50 : ℚ) =
      .ok ("silence-2.1s.mp3",
        ⟨[], [(20, "silence-2s.mp3"), (21, "silence-2.1s.mp3")], [], none,
          ["silence-2.1s.mp3", "silence-2s.mp3"]⟩) := by
    simp only [getOrCreateSilence, h3]
    decide
  exact ⟨h1, h2, h3, _, _, _, _, _, _, e1, e2, e3, rfl, by decide, rfl, rfl⟩

/-- Claim C3 counterexample: the part_002 generateTTSForBlock has no
per-unit catch, so with a synthesis oracle that rejects for the block hi
the batch loop itself rejects with that error, aborting the sibling
block ok of the same batch instead of mapping the failure to null. -/
theorem C3_counterexample :
    processBatches
      (generateTTSForBlock
        (fun t => if t = "hi" then .error "boom" else .ok (some [0]))
        (.ok ()) "alloy" "tts-1" 0)
      emptySrvState [⟨"hi", 0⟩, ⟨"ok", 0⟩] = .error "boom" := by decide

/-- Claim C3 (amended): in the ttsRoutes.js variant the per-unit failure
is caught inside generateTTSForBlock and mapped to null with the state
unchanged, and the batch loop over this total per-unit function never
rejects: it resolves with one result slot per unit, in unit order, and
the chunk list is the null-filtered slot sequence. -/
theorem C3_amended
    (synth : String → Except String (Option (List Nat)))
    (gen : Except String Unit) (voice model : String) (now : Nat)
    (st : SrvState) (b : Block) (e : String)
    (htext : b.text ≠ "")
    (hredis : st.redis = none)
    (hmiss : st.audioChunkCache.lookup (generateChunkCacheKey b.text voice model) = none)
    (hfail : synth b.text = .error e) :
    TtsRoutes.generateTTSForBlock synth gen voice model now st b = (none, st) ∧
    ∀ (st₀ : SrvState) (blocks : List Block),
      processBatches
        (fun s u => .ok (TtsRoutes.generateTTSForBlock synth gen voice model now s u))
        st₀ blocks =
        .ok
          (((runUnitsTotal (TtsRoutes.generateTTSForBlock synth gen voice model now)
              st₀ blocks).1).filterMap id,
            (runUnitsTotal (TtsRoutes.generateTTSForBlock synth gen voice model now)
              st₀ blocks).2) ∧
      (runUnitsTotal (TtsRoutes.generateTTSForBlock synth gen voice model now)
          st₀ blocks).1.length = blocks.length := by
  constructor
  · unfold TtsRoutes.generateTTSForBlock TtsRoutes.generateTTSForBlockCore
    rw [if_neg htext]
    simp only [hredis, hmiss, hfail]
  · intro st₀ blocks
    refine ⟨?_, runUnitsTotal_length _ blocks st₀⟩
    rw [processBatches_eq,
      runUnits_of_total (TtsRoutes.generateTTSForBlock synth gen voice model now) blocks st₀]
    rfl

theorem C3_amended_witness :
    ((⟨"hi", 0⟩ : Block).text ≠ "" ∧
      emptySrvState.redis = none ∧
      emptySrvState.audioChunkCache.lookup (generateChunkCacheKey "hi" "alloy" "tts-1") = none ∧
      (fun _ : String => (.error "boom" : Except String (Option (List Nat)))) "hi" =
        .error "boom") ∧
    TtsRoutes.generateTTSForBlock (fun _ => .error "boom") (.ok ()) "alloy" "tts-1" 0
      emptySrvState ⟨"hi", 0⟩ = (none, emptySrvState) :=
  ⟨⟨by decide, rfl, rfl, rfl⟩,
    (C3_amended (fun _ => .error "boom") (.ok ()) "alloy" "tts-1" 0 emptySrvState
      ⟨"hi", 0⟩ "boom" (by decide) rfl rfl rfl).1⟩

/-! ## Lookup lemmas for the sweep theorems -/

theorem lookup_eq_none_of_not_mem_keys {α β : Type} [BEq α] [LawfulBEq α]
    (l : List (α × β)) (k : α) (h : k ∉ l.map Prod.fst) : l.lookup k = none := by
  induction l with
  | nil => rfl
  | cons q rest ih =>
    obtain ⟨a, b⟩ := q
    simp only [List.map_cons, List.mem_cons] at h
    push_neg at h
    obtain ⟨h1, h2⟩ := h
    have hk : (k == a) = false := beq_eq_false_iff_ne.mpr h1
    simp only [List.lookup, hk]
    exact ih h2

theorem mem_of_lookup_some {α β : Type} [BEq α] [LawfulBEq α]
    (l : List (α × β)) (k : α) (e : β) (h : l.lookup k = some e) : (k, e) ∈ l := by
  induction l with
  | nil => simp [List.lookup] at h
  | cons q rest ih =>
    obtain ⟨a, b⟩ := q
    by_cases hk : k == a
    · have hk' : k = a := eq_of_beq hk
      subst hk'
      simp only [List.lookup, beq_self_eq_true] at h
      have hb : b = e := by simpa using h
      subst hb
      exact List.mem_cons_self _ _
    · have hk' : (k == a) = false := by
        exact Bool.not_eq_true _ ▸ (by simpa using hk)
      simp only [List.lookup, hk'] at h
      exact List.mem_cons_of_mem _ (ih h)

theorem lookup_filter_out {α β : Type} [BEq α] [LawfulBEq α]
    (l : List (α × β)) (k : α) (e : β) (p : α × β → Bool)
    (hnd : (l.map Prod.fst).Nodup) (hl : l.lookup k = some e) (hp : p (k, e) = false) :
    (l.filter p).lookup k = none := by
  induction l with
  | nil => simp [List.lookup] at hl
  | cons q rest ih =>
    obtain ⟨a, b⟩ := q
    simp only [List.map_cons, List.nodup_cons] at hnd
    obtain ⟨hna, hnd'⟩ := hnd
    by_cases hk : k == a
    · have hk' : k = a := eq_of_beq hk
      subst hk'
      simp only [List.lookup, beq_self_eq_true] at hl
      have hb : b = e := by simpa using hl
      subst hb
      rw [List.filter_cons, hp]
      simp only [Bool.false_eq_true, if_false]
      apply lookup_eq_none_of_not_mem_keys
      intro hmem
      exact hna (((List.filter_sublist rest).map Prod.fst).subset hmem)
    · have hk' : (k == a) = false := by
        exact Bool.not_eq_true _ ▸ (by simpa using hk)
      simp only [List.lookup, hk'] at hl
      rw [List.filter_cons]
      by_cases hq : p (a, b)
      · rw [if_pos hq]
        simp only [List.lookup, hk']
        exact ih hnd' hl
      · rw [if_neg hq]
        exact ih hnd' hl

/-- Claim C9: both TTL-bound artifact caches are swept on a period equal
to their shared 24-hour retention window, and one sweep removes every
entry whose age exceeds the window — the entry leaves the map and its
file leaves the filesystem, with no regard to accesses since creation —
so a subsequent lookup of that key returns none, exactly as on a fresh
cache miss. -/
theorem C9_ttl_eviction (now : Nat) (st : SrvState)
    (hndC : (st.audioChunkCache.map Prod.fst).Nodup)
    (hndM : (st.mergeCache.map Prod.fst).Nodup) :
    chunkSweepPeriodMs = CHUNK_CACHE_DURATION ∧
    mergeSweepPeriodMs = MERGE_CACHE_DURATION ∧
    CHUNK_CACHE_DURATION = 24 * 60 * 60 * 1000 ∧
    MERGE_CACHE_DURATION = 24 * 60 * 60 * 1000 ∧
    (∀ k e, st.audioChunkCache.lookup k = some e →
      CHUNK_CACHE_DURATION < now - e.timestamp →
      (sweepChunkCache now st).audioChunkCache.lookup k = none ∧
        e.path ∉ (sweepChunkCache now st).files) ∧
    (∀ k e, st.mergeCache.lookup k = some e →
      MERGE_CACHE_DURATION < now - e.timestamp →
      (sweepMergeCache now st).mergeCache.lookup k = none ∧
        e.path ∉ (sweepMergeCache now st).files) := by
  refine ⟨rfl, rfl, rfl, rfl, ?_, ?_⟩
  · intro k e hl hage
    have hex : chunkExpired now e = true := by
      simp [chunkExpired, hage]
    constructor
    · apply lookup_filter_out st.audioChunkCache k e _ hndC hl
      simp [hex]
    · intro hmem
      have hmem2 := List.mem_filter.mp hmem
      have hpaths : e.path ∈
          (st.audioChunkCache.filter fun kv => chunkExpired now kv.2).map
            fun kv => kv.2.path := by
        refine List.mem_map.mpr ⟨(k, e), ?_, rfl⟩
        exact List.mem_filter.mpr ⟨mem_of_lookup_some _ _ _ hl, hex⟩
      have := of_decide_eq_true hmem2.2
      exact this hpaths
  · intro k e hl hage
    have hex : mergeExpired now e = true := by
      simp [mergeExpired, hage]
    constructor
    · apply lookup_filter_out st.mergeCache k e _ hndM hl
      simp [hex]
    · intro hmem
      have hmem2 := List.mem_filter.mp hmem
      have hpaths : e.path ∈
          (st.mergeCache.filter fun kv => mergeExpired now kv.2).map
            fun kv => kv.2.path := by
        refine List.mem_map.mpr ⟨(k, e), ?_, rfl⟩
        exact List.mem_filter.mpr ⟨mem_of_lookup_some _ _ _ hl, hex⟩
      have := of_decide_eq_true hmem2.2
      exact this hpaths

theorem C9_ttl_eviction_witness :
    (((⟨[("k", ⟨"f.mp3", 0⟩)], [], [("m", ⟨"g.mp3", "/audio/g.mp3", 0⟩)], none,
          ["f.mp3", "g.mp3"]⟩ : SrvState).audioChunkCache.map Prod.fst).Nodup ∧
      ((⟨[("k", ⟨"f.mp3", 0⟩)], [], [("m", ⟨"g.mp3", "/audio/g.mp3", 0⟩)], none,
          ["f.mp3", "g.mp3"]⟩ : SrvState).mergeCache.map Prod.fst).Nodup) ∧
    ((⟨[("k", ⟨"f.mp3", 0⟩)], [], [("m", ⟨"g.mp3", "/audio/g.mp3", 0⟩)], none,
        ["f.mp3", "g.mp3"]⟩ : SrvState).audioChunkCache.lookup "k" =
        some ⟨"f.mp3", 0⟩ ∧
      CHUNK_CACHE_DURATION < 24 * 60 * 60 * 1000 + 1 - (0 : Nat)) ∧
    (sweepChunkCache (24 * 60 * 60 * 1000 + 1)
        ⟨[("k", ⟨"f.mp3", 0⟩)], [], [("m", ⟨"g.mp3", "/audio/g.mp3", 0⟩)], none,
          ["f.mp3", "g.mp3"]⟩).audioChunkCache.lookup "k" = none ∧
      "f.mp3" ∉ (sweepChunkCache (24 * 60 * 60 * 1000 + 1)
        ⟨[("k", ⟨"f.mp3", 0⟩)], [], [("m", ⟨"g.mp3", "/audio/g.mp3", 0⟩)], none,
          ["f.mp3", "g.mp3"]⟩).files :=
  ⟨⟨by decide, by decide⟩, ⟨rfl, by decide⟩,
    (C9_ttl_eviction (24 * 60 * 60 * 1000 + 1)
      ⟨[("k", ⟨"f.mp3", 0⟩)], [], [("m", ⟨"g.mp3", "/audio/g.mp3", 0⟩)], none,
        ["f.mp3", "g.mp3"]⟩ (by decide) (by decide)).2.2.2.2.1 "k" ⟨"f.mp3", 0⟩
      rfl (by decide)⟩

theorem assocSet_lookup_self {α β : Type} [BEq α] [LawfulBEq α]
    (l : List (α × β)) (k : α) (v : β) : (assocSet l k v).lookup k = some v := by
  induction l with
  | nil => simp [assocSet, List.lookup]
  | cons q rest ih =>
    obtain ⟨a, b⟩ := q
    by_cases h : a == k
    · simp only [assocSet, h, if_true, List.lookup, beq_self_eq_true]
    · have h2 : (k == a) = false := by
        rw [beq_eq_false_iff_ne]
        intro he
        subst he
        simp at h
      simp only [assocSet, h, Bool.false_eq_true, if_false, List.lookup, h2]
      exact ih

/-- Claim C7: the merge cache key is computed from (ttsUrl, musicUrl,
musicVolume) only — ttsVolume never reaches generateMergeCacheKey — so
two mix requests differing only in speech volume compute the same key,
and once the first has been answered successfully the second is served
the cached result of the first: the same mixed URL with cached true and
no state change. -/
theorem C7_speechVolume_excluded (st : SrvState) (r1 r2 : MixReq)
    (mixOk2 : Bool) (now1 now2 : Nat)
    (h1 : r1.ttsUrl = r2.ttsUrl) (h2 : r1.musicUrl = r2.musicUrl)
    (h3 : r1.musicVolume = r2.musicVolume)
    (hu : r1.ttsUrl ≠ "") (hm : r1.musicUrl ≠ "")
    (hft : st.files.contains (resolvePublic r1.ttsUrl) = true)
    (hfm : st.files.contains (resolvePublic r1.musicUrl) = true) :
    generateMergeCacheKey r1.ttsUrl r1.musicUrl r1.musicVolume =
      generateMergeCacheKey r2.ttsUrl r2.musicUrl r2.musicVolume ∧
    ∀ url c st₁, mixWithMusic true now1 st r1 = (.ok url c, st₁) →
      mixWithMusic mixOk2 now2 st₁ r2 = (.ok url true, st₁) := by
  have hkey : generateMergeCacheKey r1.ttsUrl r1.musicUrl r1.musicVolume =
      generateMergeCacheKey r2.ttsUrl r2.musicUrl r2.musicVolume := by
    rw [h1, h2, h3]
  refine ⟨hkey, ?_⟩
  intro url c st₁ hrun
  have hval1 : ¬(r1.ttsUrl = "" ∨ r1.musicUrl = "") := by
    rintro (h | h)
    · exact hu h
    · exact hm h
  have hval2 : ¬(r2.ttsUrl = "" ∨ r2.musicUrl = "") := by
    rw [← h1, ← h2]
    exact hval1
  have hft2 : resolvePublic r1.ttsUrl ∈ st.files := by simpa using hft
  have hfm2 : resolvePublic r1.musicUrl ∈ st.files := by simpa using hfm
  have hfiles1 : ¬(st.files.contains (resolvePublic r1.ttsUrl) = false ∨
      st.files.contains (resolvePublic r1.musicUrl) = false) := by
    simp [hft2, hfm2]
  unfold mixWithMusic at hrun
  rw [if_neg hval1, if_neg hfiles1] at hrun
  dsimp only at hrun
  unfold mixWithMusic
  rw [if_neg hval2, ← h1, ← h2, ← h3]
  cases hl : st.mergeCache.lookup
      (generateMergeCacheKey r1.ttsUrl r1.musicUrl r1.musicVolume) with
  | some e =>
    rw [hl] at hrun
    dsimp only at hrun
    by_cases hfe : st.files.contains e.path = true
    · rw [if_pos hfe] at hrun
      simp only [Prod.mk.injEq, MixRes.ok.injEq] at hrun
      obtain ⟨⟨hu1, hc1⟩, hs1⟩ := hrun
      subst hu1
      subst hs1
      rw [if_neg hfiles1]
      dsimp only
      rw [hl]
      dsimp only
      rw [if_pos hfe]
    · rw [if_neg hfe, if_pos rfl] at hrun
      simp only [Prod.mk.injEq, MixRes.ok.injEq] at hrun
      obtain ⟨⟨hu1, hc1⟩, hs1⟩ := hrun
      subst hu1
      subst hs1
      rw [if_neg (by simp [hft2, hfm2])]
      dsimp only
      rw [assocSet_lookup_self]
      dsimp only
      rw [if_pos (by simp)]
  | none =>
    rw [hl] at hrun
    dsimp only at hrun
    rw [if_pos rfl] at hrun
    simp only [Prod.mk.injEq, MixRes.ok.injEq] at hrun
    obtain ⟨⟨hu1, hc1⟩, hs1⟩ := hrun
    subst hu1
    subst hs1
    rw [if_neg (by simp [hft2, hfm2])]
    dsimp only
    rw [assocSet_lookup_self]
    dsimp only
    rw [if_pos (by simp)]

theorem C7_speechVolume_excluded_witness :
    (("/t.mp3" : String) ≠ "" ∧ ("/m.mp3" : String) ≠ "" ∧
      ((⟨[], [], [], none, ["public/t.mp3", "public/m.mp3"]⟩ :
          SrvState)).files.contains (resolvePublic "/t.mp3") = true ∧
      ((⟨[], [], [], none, ["public/t.mp3", "public/m.mp3"]⟩ :
          SrvState)).files.contains (resolvePublic "/m.mp3") = true) ∧
    ∀ url c st₁,
      mixWithMusic true 5 ⟨[], [], [], none, ["public/t.mp3", "public/m.mp3"]⟩
          ⟨"/t.mp3", "/m.mp3", 1, 1⟩ = (.ok url c, st₁) →
      mixWithMusic false 6 st₁ ⟨"/t.mp3", "/m.mp3", 1, 2⟩ = (.ok url true, st₁) :=
  ⟨⟨by decide, by decide, by decide, by decide⟩,
    (C7_speechVolume_excluded ⟨[], [], [], none, ["public/t.mp3", "public/m.mp3"]⟩
      ⟨"/t.mp3", "/m.mp3", 1, 1⟩ ⟨"/t.mp3", "/m.mp3", 1, 2⟩ false 5 6
      rfl rfl rfl (by decide) (by decide) (by decide) (by decide)).2⟩
